import Mathlib

/-
Verification of the rust-ipfs-api object model (src/object.rs, src/api.rs,
src/name.rs) by shallow embedding.

Network calls are modelled by passing the backend's reply explicitly: every
function that performs an HTTP request takes the decoded response (an
`Except IoError _`) as an argument and is otherwise a faithful translation
of the Rust source.  Rust `u64` sizes are modelled as `Nat`; byte vectors
as `List Nat`.  A Rust `panic!`/`unwrap` failure is modelled by a dedicated
outcome constructor.
-/

set_option maxRecDepth 10000

/-! ### Error model (std::io::Error as kind + message) -/

inductive ErrKind : Type
  | notFound
  | invalidInput
  | invalidData
  | other
  deriving DecidableEq, Repr

/-- Model of `std::io::Error`: an error kind plus the description string. -/
structure IoError : Type where
  kind : ErrKind
  msg : String
  deriving DecidableEq, Repr

/-! ### Base58 (rust_base58::{FromBase58, ToBase58}) -/

/-- The bitcoin base58 alphabet used by the `rust-base58` crate. -/
def base58Alphabet : List Char :=
  "123456789ABCDEFGHJKLMNPQRSTUVWXYZabcdefghijkmnopqrstuvwxyz".toList

/-- Value of one base58 digit character; `none` for a character outside the
alphabet (the decode-error case of `from_base58`). -/
def base58CharValue (c : Char) : Option Nat :=
  base58Alphabet.findIdx? (fun x => x == c)

/-- Big-endian base-58 accumulation of a character list; `none` as soon as an
invalid character is hit. -/
def base58ToNatAux : Nat → List Char → Option Nat
  | acc, [] => some acc
  | acc, c :: cs =>
    match base58CharValue c with
    | none => none
    | some v => base58ToNatAux (acc * 58 + v) cs

/-- Number of leading '1' characters (they encode leading zero bytes). -/
def countLeadingOnes : List Char → Nat
  | [] => 0
  | c :: cs => if c = '1' then countLeadingOnes cs + 1 else 0

/-- Big-endian bytes of `n`, fuelled so that it is structurally recursive. -/
def natToBytesAux : Nat → Nat → List Nat
  | 0, _ => []
  | fuel + 1, n => if n = 0 then [] else natToBytesAux fuel (n / 256) ++ [n % 256]

/-- Big-endian byte representation of a natural number. -/
def natToBytes (n : Nat) : List Nat :=
  natToBytesAux n n

/-- Model of `str::from_base58`: decode a base58 string to bytes, failing on
any character outside the alphabet. -/
def fromBase58 (s : String) : Option (List Nat) :=
  match base58ToNatAux 0 s.toList with
  | none => none
  | some n => some (List.replicate (countLeadingOnes s.toList) 0 ++ natToBytes n)

/-- Base-58 digit characters of `n` (most significant first), fuelled. -/
def natToBase58Aux : Nat → Nat → List Char
  | 0, _ => []
  | fuel + 1, n =>
    if n = 0 then [] else natToBase58Aux fuel (n / 58) ++ [base58Alphabet.getD (n % 58) '1']

/-- Number of leading zero bytes. -/
def countLeadingZeroBytes : List Nat → Nat
  | [] => 0
  | b :: bs => if b = 0 then countLeadingZeroBytes bs + 1 else 0

/-- Big-endian value of a byte string. -/
def bytesToNat (bs : List Nat) : Nat :=
  bs.foldl (fun a b => a * 256 + b) 0

/-- Model of `[u8]::to_base58`: encode bytes as a base58 string. -/
def toBase58 (bs : List Nat) : String :=
  String.mk (List.replicate (countLeadingZeroBytes bs) '1'
    ++ natToBase58Aux (bytesToNat bs) (bytesToNat bs))

/-! ### Data model (src/object.rs) -/

/-- `Reference { size: u64, hash: String }` — a thin handle to an object. -/
structure Reference : Type where
  size : Nat
  hash : String
  deriving DecidableEq, Repr

/-- `Link { name: String, object: Reference }`. -/
structure Link : Type where
  name : String
  object : Reference
  deriving DecidableEq, Repr

/-- `Object { data: Vec<u8>, links: Vec<Link> }` — a draft object. -/
structure Object : Type where
  data : List Nat
  links : List Link
  deriving DecidableEq, Repr

/-- `CommittedObject { reference: Reference, object: Object }`. -/
structure CommittedObject : Type where
  reference : Reference
  object : Object
  deriving DecidableEq, Repr

/-- `Object::size`: `self.data.len() as u64 + self.links.iter().fold(0, |c, l| c + l.object.size())`. -/
def Object.size (o : Object) : Nat :=
  o.data.length + o.links.foldl (fun c l => c + l.object.size) 0

/-- `CommittedObject::size` returns the precomputed `self.reference.size()`. -/
def CommittedObject.size (c : CommittedObject) : Nat :=
  c.reference.size

/-! ### Path splitting (str::splitn as used by Object::get) -/

/-- Split a character list at the first occurrence of `sep`; `none` when `sep`
does not occur. -/
def splitAtFirst (sep : Char) : List Char → Option (List Char × List Char)
  | [] => none
  | c :: cs =>
    if c = sep then some ([], cs)
    else (splitAtFirst sep cs).map (fun p => (c :: p.1, p.2))

/-- Model of Rust `str::splitn(n, sep)`: yields at most `n` pieces, the last
piece carrying the unsplit remainder.  In particular `splitn 1` yields the
whole string as a single piece without splitting. -/
def splitn : Nat → Char → List Char → List (List Char)
  | 0, _, _ => []
  | 1, _, cs => [cs]
  | n + 2, sep, cs =>
    match splitAtFirst sep cs with
    | none => [cs]
    | some p => p.1 :: splitn (n + 1) sep p.2

/-! ### Object::get — local link traversal -/

/-- Outcome of the local part of `Object::get`: either an immediate error, or
a delegation to the top-level `object::get` with the given path argument. -/
inductive LocalGetOutcome : Type
  | error (e : IoError)
  | delegate (path : String)
  deriving DecidableEq, Repr

/-- Shallow embedding of `Object::get` (src/object.rs lines 79-99).  The code
calls `path.splitn(1, '/')`, so `pre` is the entire path and `suffixPart`
is always `none`. -/
def Object.get (o : Object) (path : String) : LocalGetOutcome :=
  if path = "" then
    .error ⟨.invalidInput, "cannot resolve empty path"⟩
  else if path.toList.head? = some '/' then
    .error ⟨.invalidInput, "expected relative path"⟩
  else
    let pieces := splitn 1 '/' path.toList
    let pre := pieces.headD []
    let suffixPart := pieces[1]?
    match o.links.find? (fun l => l.name == String.mk pre) with
    | some link =>
      match suffixPart with
      | none => .delegate link.object.hash
      | some [] => .delegate link.object.hash
      | some suf => .delegate (link.object.hash ++ "/" ++ String.mk suf)
    | none => .error ⟨.notFound, "path lookup failed"⟩

/-- Modelled from the spec's words (and the method's own doc comment), for
comparison with `Object.get`: split the path at the FIRST '/' into a head
component and an optional remainder (i.e. `splitn(2, '/')`), match the head
against link names, and delegate `hash/suffix` to the backend. -/
def Object.getSpec (o : Object) (path : String) : LocalGetOutcome :=
  if path = "" then
    .error ⟨.invalidInput, "cannot resolve empty path"⟩
  else if path.toList.head? = some '/' then
    .error ⟨.invalidInput, "expected relative path"⟩
  else
    let pieces := splitn 2 '/' path.toList
    let pre := pieces.headD []
    let suffixPart := pieces[1]?
    match o.links.find? (fun l => l.name == String.mk pre) with
    | some link =>
      match suffixPart with
      | none => .delegate link.object.hash
      | some [] => .delegate link.object.hash
      | some suf => .delegate (link.object.hash ++ "/" ++ String.mk suf)
    | none => .error ⟨.notFound, "path lookup failed"⟩

/-! ### Commit protocol (Object::commit, src/object.rs lines 142-192) -/

/-- On-wire `PBLink { Name, Hash, Tsize }`. -/
structure PBLink : Type where
  Name : String
  Hash : List Nat
  Tsize : Nat
  deriving DecidableEq, Repr

/-- On-wire `PBNode { Links, Data }`. -/
structure PBNode : Type where
  Links : List PBLink
  Data : List Nat
  deriving DecidableEq, Repr

/-- Build the wire links from the draft's links:
`link.set_Name(l.name); link.set_Hash(l.object.hash().from_base58().unwrap()); link.set_Tsize(l.object.size())`.
`none` models the `unwrap` panic at the first link whose hash fails base58
decoding. -/
def buildLinks : List Link → Option (List PBLink)
  | [] => some []
  | l :: ls =>
    match fromBase58 l.object.hash with
    | none => none
    | some h => (buildLinks ls).map (fun rest => ⟨l.name, h, l.object.size⟩ :: rest)

/-- Build the full wire node: the links as above, `Data` set to the draft's
bytes. -/
def buildNode (o : Object) : Option PBNode :=
  (buildLinks o.links).map (fun ls => ⟨ls, o.data⟩)

/-- Outcome of `Object::commit`: a panic (failed `unwrap`), a `CommitError`
carrying the draft back, or a `CommittedObject`. -/
inductive CommitOutcome : Type
  | panics
  | failure (error : IoError) (object : Object)
  | success (c : CommittedObject)
  deriving DecidableEq, Repr

/-- Shallow embedding of `Object::commit`.  `resp` is the decoded reply of
`POST object/put` (the `Hash` field of the JSON result on success).  On
failure the draft is rebuilt from `node.take_Data()` and the original links;
on success the reference carries the rebuilt object's computed size and the
server-supplied hash. -/
def Object.commit (o : Object) (resp : Except IoError String) : CommitOutcome :=
  match buildNode o with
  | none => .panics
  | some node =>
    match resp with
    | .error e => .failure e ⟨node.Data, o.links⟩
    | .ok hash =>
      let object : Object := ⟨node.Data, o.links⟩
      .success ⟨⟨object.size, hash⟩, object⟩

/-! ### Top-level object::get (src/object.rs lines 253-286) -/

/-- Suffix of `l` strictly after the last occurrence of `c`; `none` when `c`
does not occur.  Models `path.rfind('/')` followed by `path.drain(..idx+1)`. -/
def afterLast (c : Char) : List Char → Option (List Char)
  | [] => none
  | x :: xs =>
    match afterLast c xs with
    | some r => some r
    | none => if x = c then some xs else none

/-- Outcome of the top-level `object::get`: a panic (the `rfind` `unwrap`),
an error, or a committed object. -/
inductive GetOutcome : Type
  | panics
  | failure (e : IoError)
  | success (c : CommittedObject)
  deriving DecidableEq, Repr

/-- Shallow embedding of the free function `object::get`.  `resolved` is the
result of `resolve(path, true)`; `fetched` is the decoded protobuf reply of
`GET object/get`.  Links are rebuilt with base58-encoded hashes, the hash of
the result is the substring of the resolved path after its final '/', and
the reference size is the computed size of the assembled object. -/
def object.get (resolved : Except IoError String) (fetched : Except IoError PBNode) :
    GetOutcome :=
  match resolved with
  | .error e => .failure e
  | .ok path =>
    match fetched with
    | .error e => .failure e
    | .ok node =>
      let links : List Link := node.Links.map (fun l => ⟨l.Name, ⟨l.Tsize, toBase58 l.Hash⟩⟩)
      match afterLast '/' path.toList with
      | none => .panics
      | some rest =>
        let object : Object := ⟨node.Data, links⟩
        .success ⟨⟨object.size, String.mk rest⟩, object⟩

/-! ### Reference (src/object.rs lines 326-387) -/

/-- The `InvalidData` error produced by `Reference::get` on a size mismatch. -/
def sizeMismatchError : IoError :=
  ⟨.invalidData, "reference and referenced object sizes do not match"⟩

/-- Shallow embedding of `Reference::get`: `fetched` is the result of
`get(&self.hash)`; a successful fetch whose precomputed size differs from
the reference's size becomes `sizeMismatchError`, otherwise the object is
passed through unchanged. -/
def Reference.get (r : Reference) (fetched : Except IoError CommittedObject) :
    Except IoError CommittedObject :=
  match fetched with
  | .error e => .error e
  | .ok v => if v.size ≠ r.size then .error sizeMismatchError else .ok v

/-- `api::bool_to_str`. -/
def api.bool_to_str (b : Bool) : String :=
  if b then "true" else "false"

/-- `api::ipfs_error::NOT_PINNED`. -/
def ipfsErrorNotPinned : String := "not pinned"

/-- An HTTP request issued by the library: method is implicit in the model
(the functions below only issue POSTs), `path` is the API path, `query` the
query pairs in order. -/
structure ApiRequest : Type where
  path : String
  query : List (String × String)
  deriving DecidableEq, Repr

/-- Shallow embedding of `Reference::unpin`: returns the request it issues
(`POST pin/rm` — the `arg` passes `&self`, which derefs to the hash) paired
with the result computed from the server's reply `resp`: an error whose
description is exactly "not pinned" is folded into success, any other error
is surfaced. -/
def Reference.unpin (r : Reference) (recursive : Bool) (resp : Except IoError Unit) :
    ApiRequest × Except IoError Unit :=
  (⟨"pin/rm", [("recursive", api.bool_to_str recursive), ("arg", r.hash)]⟩,
   match resp with
   | .ok _ => .ok ()
   | .error e => if e.msg = ipfsErrorNotPinned then .ok () else .error e)

/-! ### Transport facade (src/api.rs) -/

/-- Decoded remote error body `IpfsError { Message, Code }`. -/
structure IpfsError : Type where
  message : String
  code : Nat
  deriving DecidableEq, Repr

/-- `hyper::Error` as seen by the transport functions: either a wrapped I/O
error or some other transport error with a description. -/
inductive HyperError : Type
  | ioFailure (e : IoError)
  | otherFailure (desc : String)
  deriving DecidableEq, Repr

/-- An HTTP response, carrying the status outcome and what each of the two
possible body decodes would yield: `parsed` is `P::parse(body)` for the
call's codec, `errorParsed` is `Json::parse(body)` as an `IpfsError`. -/
structure HttpResponse (α : Type) : Type where
  statusSuccess : Bool
  parsed : Except IoError α
  errorParsed : Except IoError IpfsError

/-- Shallow embedding of `api::handle_error`: on HTTP success decode the body
with the codec; otherwise decode it as an `IpfsError` and surface its
`Message` as an `Other`-kind error. -/
def api.handle_error {α : Type} (r : HttpResponse α) : Except IoError α :=
  if r.statusSuccess then r.parsed
  else
    match r.errorParsed with
    | .error e => .error e
    | .ok result => .error ⟨.other, result.message⟩

/-- Shallow embedding of `api::get`: a transport-level `hyper::Error::Io` is
returned as the underlying I/O error, any other transport error is wrapped
as `InvalidData`, and a response goes through `handle_error`. -/
def api.get {α : Type} (resp : Except HyperError (HttpResponse α)) : Except IoError α :=
  match resp with
  | .error (.ioFailure e) => .error e
  | .error (.otherFailure d) => .error ⟨.invalidData, d⟩
  | .ok r => api.handle_error r

/-- Shallow embedding of `api::post` (same error discipline as `api::get`). -/
def api.post {α : Type} (resp : Except HyperError (HttpResponse α)) : Except IoError α :=
  match resp with
  | .error (.ioFailure e) => .error e
  | .error (.otherFailure d) => .error ⟨.invalidData, d⟩
  | .ok r => api.handle_error r

/-- Shallow embedding of `api::post_data` (same error discipline again; the
multipart body write is not observable in the error contract). -/
def api.post_data {α : Type} (resp : Except HyperError (HttpResponse α)) : Except IoError α :=
  match resp with
  | .error (.ioFailure e) => .error e
  | .error (.otherFailure d) => .error ⟨.invalidData, d⟩
  | .ok r => api.handle_error r

/-! ### Name publishing (src/name.rs) -/

/-- `std::time::Duration`: whole seconds plus subsecond nanoseconds. -/
structure Duration : Type where
  secs : Nat
  nanos : Nat
  deriving DecidableEq, Repr

/-- `Duration::from_secs`. -/
def Duration.from_secs (s : Nat) : Duration :=
  ⟨s, 0⟩

/-- `Duration * u32`: multiply, carrying nanosecond overflow into seconds. -/
def Duration.mulNat (d : Duration) (k : Nat) : Duration :=
  ⟨d.secs * k + d.nanos * k / 1000000000, d.nanos * k % 1000000000⟩

/-- Shallow embedding of `name::publish_for`: the issued request
(`POST name/publish` with `resolve=false`,
`lifetime="<secs>s<nanos>ns"`, `arg=<hash>`) paired with the result; the
response body is ignored (the `Ignore` codec), so the server reply is passed
through unchanged. -/
def name.publish_for (r : Reference) (expires_in : Duration) (resp : Except IoError Unit) :
    ApiRequest × Except IoError Unit :=
  (⟨"name/publish",
    [("resolve", "false"),
     ("lifetime", toString expires_in.secs ++ "s" ++ toString expires_in.nanos ++ "ns"),
     ("arg", r.hash)]⟩,
   resp)

/-- Shallow embedding of `name::publish`:
`publish_for(obj, Duration::from_secs(60*60)*24)`. -/
def name.publish (r : Reference) (resp : Except IoError Unit) :
    ApiRequest × Except IoError Unit :=
  name.publish_for r ((Duration.from_secs (60 * 60)).mulNat 24) resp

/-! ### Structural equality (PartialEq impls, src/object.rs lines 16-50) -/

/-- Derived `PartialEq` for `Reference`: field-wise. -/
def Reference.eqb (a b : Reference) : Bool :=
  a.size == b.size && a.hash == b.hash

/-- Derived `PartialEq` for `Link`: field-wise. -/
def Link.eqb (a b : Link) : Bool :=
  a.name == b.name && a.object.eqb b.object

/-- `Vec<Link>` equality: element-wise, equal lengths. -/
def linksEqb : List Link → List Link → Bool
  | [], [] => true
  | x :: xs, y :: ys => x.eqb y && linksEqb xs ys
  | _, _ => false

/-- Derived `PartialEq` for `Object`: field-wise. -/
def Object.eqb (a b : Object) : Bool :=
  a.data == b.data && linksEqb a.links b.links

/-- `PartialEq<CommittedObject> for CommittedObject`: by reference alone. -/
def CommittedObject.eqb (a b : CommittedObject) : Bool :=
  a.reference.eqb b.reference

/-- `PartialEq<Object> for CommittedObject`: compares the inner draft. -/
def CommittedObject.eqObject (a : CommittedObject) (d : Object) : Bool :=
  a.object.eqb d

/-- `PartialEq<CommittedObject> for Object`: compares against the inner draft. -/
def Object.eqCommitted (d : Object) (a : CommittedObject) : Bool :=
  d.eqb a.object

/-- C1: the claim says `Object::get` splits a slash-containing path at the
first '/' and matches the head segment against link names, delegating the
tail to the backend.  The code instead calls `splitn(1, '/')`, which never
splits, so on an object with a link named "a" the path "a/b" falls through
to `NotFound "path lookup failed"` while the documented behaviour (modelled
by `Object.getSpec`) delegates "H/b". -/
theorem c1_object_get_splitn_bug :
    Object.get ⟨[], [⟨"a", ⟨0, "H"⟩⟩]⟩ "a/b"
      = .error ⟨.notFound, "path lookup failed"⟩ ∧
    Object.getSpec ⟨[], [⟨"a", ⟨0, "H"⟩⟩]⟩ "a/b" = .delegate "H/b" := by
  constructor
  · rfl
  · rfl

/-! ### Helper lemmas -/

theorem foldl_add_link_sizes (ls : List Link) (a : Nat) :
    ls.foldl (fun c l => c + l.object.size) a
      = a + (ls.map (fun l => l.object.size)).sum := by
  induction ls generalizing a with
  | nil => simp
  | cons x xs ih => simp [List.foldl_cons, ih, Nat.add_assoc]

theorem buildLinks_eq_none_iff (ls : List Link) :
    buildLinks ls = none ↔ ∃ l ∈ ls, fromBase58 l.object.hash = none := by
  induction ls with
  | nil => simp [buildLinks]
  | cons x xs ih =>
    cases hx : fromBase58 x.object.hash with
    | none => simp [buildLinks, hx]
    | some h => simp [buildLinks, hx, Option.map_eq_none', ih]

theorem buildLinks_eq_some_of (ls : List Link)
    (h : ∀ l ∈ ls, (fromBase58 l.object.hash).isSome = true) :
    buildLinks ls
      = some (ls.map fun l => ⟨l.name, (fromBase58 l.object.hash).getD [], l.object.size⟩) := by
  induction ls with
  | nil => simp [buildLinks]
  | cons x xs ih =>
    have hx : (fromBase58 x.object.hash).isSome = true := h x (by simp)
    obtain ⟨hv, hveq⟩ := Option.isSome_iff_exists.mp hx
    simp [buildLinks, hveq, ih (fun l hl => h l (List.mem_cons_of_mem _ hl))]

theorem afterLast_eq_none_iff (c : Char) (l : List Char) :
    afterLast c l = none ↔ c ∉ l := by
  induction l with
  | nil => simp [afterLast]
  | cons x xs ih =>
    cases h : afterLast c xs with
    | some r =>
      have hmem : c ∈ xs := by
        by_contra hc
        rw [ih.mpr hc] at h
        exact Option.noConfusion h
      simp [afterLast, h, List.mem_cons, hmem]
    | none =>
      have hnx : c ∉ xs := ih.mp h
      by_cases hxc : x = c
      · simp [afterLast, h, hxc, List.mem_cons]
      · simp [afterLast, h, hxc, List.mem_cons, hnx]
        exact fun hh => hxc hh.symm

theorem afterLast_eq_some (c : Char) (l r : List Char) (h : afterLast c l = some r) :
    (∃ pre, l = pre ++ c :: r) ∧ c ∉ r := by
  induction l with
  | nil => exact Option.noConfusion h
  | cons x xs ih =>
    simp only [afterLast] at h
    cases hxs : afterLast c xs with
    | some r' =>
      rw [hxs] at h
      obtain rfl : r' = r := Option.some.inj h
      obtain ⟨⟨pre, hpre⟩, hnr⟩ := ih hxs
      exact ⟨⟨x :: pre, by rw [hpre]; rfl⟩, hnr⟩
    | none =>
      rw [hxs] at h
      by_cases hxc : x = c
      · rw [if_pos hxc] at h
        obtain rfl : xs = r := Option.some.inj h
        exact ⟨⟨[], by simp [hxc]⟩, (afterLast_eq_none_iff c xs).mp hxs⟩
      · rw [if_neg hxc] at h
        exact Option.noConfusion h

theorem reference_eqb_iff (a b : Reference) : a.eqb b = true ↔ a = b := by
  cases a
  cases b
  simp [Reference.eqb]

theorem link_eqb_iff (a b : Link) : a.eqb b = true ↔ a = b := by
  cases a
  cases b
  simp [Link.eqb, reference_eqb_iff]

theorem linksEqb_iff (xs ys : List Link) : linksEqb xs ys = true ↔ xs = ys := by
  induction xs generalizing ys with
  | nil => cases ys <;> simp [linksEqb]
  | cons x xs ih =>
    cases ys with
    | nil => simp [linksEqb]
    | cons y ys => simp [linksEqb, link_eqb_iff, ih]

theorem object_eqb_iff (a b : Object) : a.eqb b = true ↔ a = b := by
  cases a
  cases b
  simp [Object.eqb, linksEqb_iff]

/-! ### Claim theorems -/

/-- C2: every committed object produced by `Object::commit` or by the
top-level `object::get` carries a reference whose size is the computed size
(data length plus the sum of the link references' sizes) and whose hash —
the server-supplied put-result hash, resp. the resolved path's trailing
segment, assumed well-formed as the backend is trusted to hash — is a
non-empty valid base58 string. -/
theorem c2_committed_reference_invariant :
    (∀ (o : Object) (h : String), h ≠ "" → (fromBase58 h).isSome = true →
      (∀ l ∈ o.links, (fromBase58 l.object.hash).isSome = true) →
      ∃ c, Object.commit o (.ok h) = .success c ∧
        c.reference.size
          = c.object.data.length + (c.object.links.map (fun l => l.object.size)).sum ∧
        c.reference.hash ≠ "" ∧ (fromBase58 c.reference.hash).isSome = true) ∧
    (∀ (p : String) (node : PBNode) (rest : List Char),
      afterLast '/' p.toList = some rest → String.mk rest ≠ "" →
      (fromBase58 (String.mk rest)).isSome = true →
      ∃ c, object.get (.ok p) (.ok node) = .success c ∧
        c.reference.size
          = c.object.data.length + (c.object.links.map (fun l => l.object.size)).sum ∧
        c.reference.hash ≠ "" ∧ (fromBase58 c.reference.hash).isSome = true) := by
  constructor
  · intro o h hne hb58 hlinks
    have hb := buildLinks_eq_some_of o.links hlinks
    refine ⟨⟨⟨Object.size ⟨o.data, o.links⟩, h⟩, ⟨o.data, o.links⟩⟩, ?_, ?_, hne, hb58⟩
    · simp [Object.commit, buildNode, hb]
    · simp [Object.size, foldl_add_link_sizes]
  · intro p node rest hafter hne hb58
    have hafter' : afterLast '/' p.data = some rest := hafter
    refine ⟨⟨⟨Object.size ⟨node.Data, node.Links.map (fun l => ⟨l.Name, ⟨l.Tsize, toBase58 l.Hash⟩⟩)⟩,
              String.mk rest⟩,
            ⟨node.Data, node.Links.map (fun l => ⟨l.Name, ⟨l.Tsize, toBase58 l.Hash⟩⟩)⟩⟩,
           ?_, ?_, hne, hb58⟩
    · simp [object.get, hafter']
    · simp [Object.size, foldl_add_link_sizes]

/-- Instantiation of `c2_committed_reference_invariant` at concrete inputs. -/
theorem c2_committed_reference_invariant_witness :
    (∃ c, Object.commit ⟨[1, 2], []⟩ (.ok "Qm") = .success c ∧
      c.reference.size
        = c.object.data.length + (c.object.links.map (fun l => l.object.size)).sum ∧
      c.reference.hash ≠ "" ∧ (fromBase58 c.reference.hash).isSome = true) ∧
    (∃ c, object.get (.ok "/ipfs/Qm") (.ok ⟨[], [7]⟩) = .success c ∧
      c.reference.size
        = c.object.data.length + (c.object.links.map (fun l => l.object.size)).sum ∧
      c.reference.hash ≠ "" ∧ (fromBase58 c.reference.hash).isSome = true) :=
  ⟨c2_committed_reference_invariant.1 ⟨[1, 2], []⟩ "Qm" (by decide) (by decide)
      (by intro l hl; cases hl),
   c2_committed_reference_invariant.2 "/ipfs/Qm" ⟨[], [7]⟩ ['Q', 'm']
      (by decide) (by decide) (by decide)⟩

/-- C3: `Reference::get` yields the `InvalidData` size-mismatch error exactly
when the underlying fetch succeeds with an object whose (precomputed)
cumulative size differs from the reference's size, and passes a
size-matching fetched object through unchanged.  The hypothesis rules out
the underlying fetch itself failing with the very same error value. -/
theorem c3_reference_get_size_check :
    ∀ (r : Reference) (fetched : Except IoError CommittedObject),
      (∀ e, fetched = .error e → e ≠ sizeMismatchError) →
      ((Reference.get r fetched = .error sizeMismatchError
          ↔ ∃ v, fetched = .ok v ∧ v.size ≠ r.size) ∧
       (∀ v, fetched = .ok v → v.size = r.size → Reference.get r fetched = .ok v)) := by
  intro r fetched herr
  constructor
  · constructor
    · intro h
      cases fetched with
      | error e =>
        simp only [Reference.get] at h
        exact absurd (Except.error.inj h) (herr e rfl)
      | ok v =>
        simp only [Reference.get] at h
        by_cases hs : v.size = r.size
        · rw [if_neg (by simp [hs])] at h
          exact Except.noConfusion h
        · exact ⟨v, rfl, hs⟩
    · rintro ⟨v, rfl, hs⟩
      simp [Reference.get, hs]
  · rintro v rfl hs
    simp [Reference.get, hs]

/-- Instantiation of `c3_reference_get_size_check`: a reference of size 5
dereferenced to an object of size 7 yields the mismatch error. -/
theorem c3_reference_get_size_check_witness :
    Reference.get ⟨5, "h"⟩ (.ok ⟨⟨7, "h"⟩, ⟨[], []⟩⟩) = .error sizeMismatchError :=
  (c3_reference_get_size_check ⟨5, "h"⟩ (.ok ⟨⟨7, "h"⟩, ⟨[], []⟩⟩)
      (by intro e he; exact Except.noConfusion he)).1.mpr
    ⟨⟨⟨7, "h"⟩, ⟨[], []⟩⟩, rfl, by decide⟩

/-- C4: when the `object/put` POST fails, `Object::commit` returns a
`CommitError` whose object field is a draft with exactly the original data
bytes and the original links in order (the data having round-tripped through
the wire node untouched). -/
theorem c4_commit_failure_returns_draft :
    ∀ (o : Object) (e : IoError),
      (∀ l ∈ o.links, (fromBase58 l.object.hash).isSome = true) →
      Object.commit o (.error e) = .failure e ⟨o.data, o.links⟩ := by
  intro o e hlinks
  simp [Object.commit, buildNode, buildLinks_eq_some_of o.links hlinks]

/-- Instantiation of `c4_commit_failure_returns_draft` at a concrete draft. -/
theorem c4_commit_failure_returns_draft_witness :
    Object.commit ⟨[1], [⟨"a", ⟨3, "Qm"⟩⟩]⟩ (.error ⟨.other, "boom"⟩)
      = .failure ⟨.other, "boom"⟩ ⟨[1], [⟨"a", ⟨3, "Qm"⟩⟩]⟩ :=
  c4_commit_failure_returns_draft ⟨[1], [⟨"a", ⟨3, "Qm"⟩⟩]⟩ ⟨.other, "boom"⟩ (by decide)

/-- C5: `Reference::unpin` succeeds when the server reply succeeds or when
the server's error message is exactly "not pinned" (so a second unpin of an
already-unpinned reference also succeeds), and surfaces any other server
error unchanged. -/
theorem c5_unpin_not_pinned_folded_to_success :
    ∀ (r : Reference) (recursive : Bool),
      ((Reference.unpin r recursive (.ok ())).2 = .ok ()) ∧
      (∀ e : IoError, e.msg = "not pinned" →
        (Reference.unpin r recursive (.error e)).2 = .ok ()) ∧
      (∀ e : IoError, e.msg ≠ "not pinned" →
        (Reference.unpin r recursive (.error e)).2 = .error e) := by
  intro r recursive
  refine ⟨rfl, ?_, ?_⟩
  · intro e he
    simp [Reference.unpin, ipfsErrorNotPinned, he]
  · intro e he
    simp [Reference.unpin, ipfsErrorNotPinned, he]

/-- Instantiation of `c5_unpin_not_pinned_folded_to_success`. -/
theorem c5_unpin_not_pinned_folded_to_success_witness :
    ((Reference.unpin ⟨1, "h"⟩ true (.error ⟨.other, "not pinned"⟩)).2 = .ok ()) ∧
    ((Reference.unpin ⟨1, "h"⟩ true (.error ⟨.other, "busy"⟩)).2
      = .error ⟨.other, "busy"⟩) :=
  ⟨(c5_unpin_not_pinned_folded_to_success ⟨1, "h"⟩ true).2.1 ⟨.other, "not pinned"⟩ rfl,
   (c5_unpin_not_pinned_folded_to_success ⟨1, "h"⟩ true).2.2 ⟨.other, "busy"⟩ (by decide)⟩

/-- C6: on an HTTP non-success response each of `api::get`, `api::post` and
`api::post_data` decodes the body as `IpfsError { Message, Code }` and
surfaces an `Other`-kind error carrying the server's message; a transport
`hyper::Error::Io` failure is surfaced as the underlying I/O error itself. -/
theorem c6_transport_error_contract :
    ∀ (α : Type) (r : HttpResponse α) (ie : IpfsError) (e : IoError),
      (r.statusSuccess = false → r.errorParsed = .ok ie →
        (api.get (.ok r) = .error ⟨.other, ie.message⟩ ∧
         api.post (.ok r) = .error ⟨.other, ie.message⟩ ∧
         api.post_data (.ok r) = .error ⟨.other, ie.message⟩)) ∧
      (api.get ((.error (.ioFailure e)) : Except HyperError (HttpResponse α)) = .error e ∧
       api.post ((.error (.ioFailure e)) : Except HyperError (HttpResponse α)) = .error e ∧
       api.post_data ((.error (.ioFailure e)) : Except HyperError (HttpResponse α))
         = .error e) := by
  intro α r ie e
  refine ⟨?_, rfl, rfl, rfl⟩
  intro hs hp
  refine ⟨?_, ?_, ?_⟩ <;>
    simp [api.get, api.post, api.post_data, api.handle_error, hs, hp]

/-- Instantiation of `c6_transport_error_contract`. -/
theorem c6_transport_error_contract_witness :
    (api.get (.ok (⟨false, .ok (), .ok ⟨"oops", 1⟩⟩ : HttpResponse Unit))
      = .error ⟨.other, "oops"⟩) ∧
    (api.get (.error (.ioFailure ⟨.other, "conn reset"⟩) : Except HyperError (HttpResponse Unit))
      = .error ⟨.other, "conn reset"⟩) :=
  ⟨((c6_transport_error_contract Unit ⟨false, .ok (), .ok ⟨"oops", 1⟩⟩ ⟨"oops", 1⟩
      ⟨.other, "conn reset"⟩).1 rfl rfl).1,
   (c6_transport_error_contract Unit ⟨false, .ok (), .ok ⟨"oops", 1⟩⟩ ⟨"oops", 1⟩
      ⟨.other, "conn reset"⟩).2.1⟩

/-- C7: `Object::commit` panics exactly when some link's hash fails base58
decoding; when every link hash decodes, the wire node is built with, for
each link, `Name = link.name`, `Hash = base58-decode(link.hash)` and
`Tsize = link.size`, and `Data` set to the draft's bytes. -/
theorem c7_commit_panic_iff_bad_base58 :
    ∀ (o : Object) (resp : Except IoError String),
      (Object.commit o resp = .panics ↔ ∃ l ∈ o.links, fromBase58 l.object.hash = none) ∧
      ((∀ l ∈ o.links, (fromBase58 l.object.hash).isSome = true) →
        buildNode o = some
          ⟨o.links.map (fun l => ⟨l.name, (fromBase58 l.object.hash).getD [], l.object.size⟩),
           o.data⟩) := by
  intro o resp
  constructor
  · constructor
    · intro h
      cases hb : buildLinks o.links with
      | none => exact (buildLinks_eq_none_iff o.links).mp hb
      | some ls =>
        exfalso
        have hbn : buildNode o = some ⟨ls, o.data⟩ := by simp [buildNode, hb]
        cases resp with
        | error e => simp [Object.commit, hbn] at h
        | ok s => simp [Object.commit, hbn] at h
    · rintro ⟨l, hl, hnone⟩
      have hb : buildLinks o.links = none :=
        (buildLinks_eq_none_iff o.links).mpr ⟨l, hl, hnone⟩
      simp [Object.commit, buildNode, hb]
  · intro hall
    simp [buildNode, buildLinks_eq_some_of o.links hall]

/-- Instantiation of `c7_commit_panic_iff_bad_base58`: a link hash containing
'0' (not a base58 character) makes commit panic; a valid draft builds the
expected wire node. -/
theorem c7_commit_panic_iff_bad_base58_witness :
    (Object.commit ⟨[], [⟨"a", ⟨0, "0"⟩⟩]⟩ (.ok "Qm") = .panics) ∧
    (buildNode ⟨[5], [⟨"a", ⟨3, "Qm"⟩⟩]⟩
      = some ⟨[⟨"a", (fromBase58 "Qm").getD [], 3⟩], [5]⟩) :=
  ⟨(c7_commit_panic_iff_bad_base58 ⟨[], [⟨"a", ⟨0, "0"⟩⟩]⟩ (.ok "Qm")).1.mpr
      ⟨⟨"a", ⟨0, "0"⟩⟩, by decide, by decide⟩,
   (c7_commit_panic_iff_bad_base58 ⟨[5], [⟨"a", ⟨3, "Qm"⟩⟩]⟩ (.ok "Qm")).2 (by decide)⟩

/-- C8: committed objects compare equal exactly when their references are
equal (inner drafts ignored), and a committed object compares equal to a
draft (in either direction) exactly when the draft structurally equals its
inner draft (reference ignored). -/
theorem c8_equality_by_reference :
    ∀ (a b : CommittedObject) (d : Object),
      (CommittedObject.eqb a b = true ↔ a.reference = b.reference) ∧
      (CommittedObject.eqObject a d = true ↔ a.object = d) ∧
      (Object.eqCommitted d a = true ↔ a.object = d) := by
  intro a b d
  refine ⟨?_, ?_, ?_⟩
  · simp [CommittedObject.eqb, reference_eqb_iff]
  · simp [CommittedObject.eqObject, object_eqb_iff]
  · simp only [Object.eqCommitted, object_eqb_iff]
    exact eq_comm

/-- C9: `name::publish` is exactly `name::publish_for` with a 24-hour
duration, and `publish_for` issues `POST name/publish` with `resolve=false`,
`lifetime="<secs>s<nanos>ns"` and `arg` the reference's hash, passing the
(ignored-body) server reply through. -/
theorem c9_publish_request_shape :
    ∀ (r : Reference) (d : Duration) (resp : Except IoError Unit),
      name.publish r resp = name.publish_for r ⟨86400, 0⟩ resp ∧
      (name.publish_for r d resp).1
        = ⟨"name/publish",
           [("resolve", "false"),
            ("lifetime", toString d.secs ++ "s" ++ toString d.nanos ++ "ns"),
            ("arg", r.hash)]⟩ ∧
      (name.publish_for r d resp).2 = resp := by
  intro r d resp
  refine ⟨?_, rfl, rfl⟩
  norm_num [name.publish, Duration.from_secs, Duration.mulNat]

/-- C10: when the resolved path contains no '/', the top-level `object::get`
panics (the `rfind` unwrap) rather than returning an error; when it does,
the returned object's reference hash is exactly the path segment after the
final '/'. -/
theorem c10_get_hash_after_final_slash :
    ∀ (p : String) (node : PBNode),
      ('/' ∉ p.toList → object.get (.ok p) (.ok node) = .panics) ∧
      ('/' ∈ p.toList →
        ∃ c rest, object.get (.ok p) (.ok node) = .success c ∧
          c.reference.hash = String.mk rest ∧
          (∃ pre, p.toList = pre ++ '/' :: rest) ∧ '/' ∉ rest) := by
  intro p node
  constructor
  · intro hno
    have h : afterLast '/' p.data = none := (afterLast_eq_none_iff '/' p.toList).mpr hno
    simp [object.get, h]
  · intro hmem
    cases hal : afterLast '/' p.toList with
    | none => exact absurd ((afterLast_eq_none_iff '/' p.toList).mp hal) (not_not_intro hmem)
    | some rest =>
      obtain ⟨⟨pre, hpre⟩, hnr⟩ := afterLast_eq_some '/' p.toList rest hal
      have hal' : afterLast '/' p.data = some rest := hal
      refine ⟨⟨⟨Object.size ⟨node.Data, node.Links.map (fun l => ⟨l.Name, ⟨l.Tsize, toBase58 l.Hash⟩⟩)⟩,
                String.mk rest⟩,
              ⟨node.Data, node.Links.map (fun l => ⟨l.Name, ⟨l.Tsize, toBase58 l.Hash⟩⟩)⟩⟩,
             rest, ?_, rfl, ⟨pre, hpre⟩, hnr⟩
      simp [object.get, hal']

/-- Instantiation of `c10_get_hash_after_final_slash`: a slash-less resolved
path panics; "/ipfs/Qm" yields the trailing segment as hash. -/
theorem c10_get_hash_after_final_slash_witness :
    (object.get (.ok "abc") (.ok ⟨[], []⟩) = .panics) ∧
    (∃ c rest, object.get (.ok "/ipfs/Qm") (.ok ⟨[], []⟩) = .success c ∧
      c.reference.hash = String.mk rest ∧
      (∃ pre, "/ipfs/Qm".toList = pre ++ '/' :: rest) ∧ '/' ∉ rest) :=
  ⟨(c10_get_hash_after_final_slash "abc" ⟨[], []⟩).1 (by decide),
   (c10_get_hash_after_final_slash "/ipfs/Qm" ⟨[], []⟩).2 (by decide)⟩
